import Mathlib

/-!
Verification of the canvas-cli core against its specification.

The development shallowly embeds the relevant JavaScript source files:

* `src/utils/dates.js`   — temporal predicates, sorts, week arithmetic,
  urgency gradient, week grouping;
* `src/api/client.js`    — the course/assignment aggregator;
* `src/commands/assignment.js` — the three-step upload driver;
* `src/ui/display.js`    — the cached course-color resolver.

Modelling conventions:

* JavaScript `Date` values are integers: milliseconds since the epoch, in a
  fixed-offset (DST-free) local clock, so `setDate`/`setHours` calendar
  arithmetic is exact day arithmetic.  Epoch day 0 is a Thursday, so the
  JavaScript weekday of epoch day `n` is `(n + 4) % 7`.
* "now" is an explicit parameter (the source captures it with `new Date()`).
* `Array.prototype.sort(cmp)` is a stable sort (ECMA-262); it is modelled by
  `List.mergeSort` with `le a b ↔ cmp a b ≤ 0`.
* `String.prototype.localeCompare` is modelled as case-sensitive
  code-unit-lexicographic comparison returning -1/0/1.
* Fallible network calls are oracles returning `Except`; thrown JavaScript
  errors are `Except.error` values.
-/

/-! ### Data model -/

/-- An assignment as returned by the per-course endpoint, before course
metadata is merged on (`src/api/client.js`). -/
structure RawAssignment where
  id : ℕ
  name : String
  due_at : Option ℤ
  has_submitted_submissions : Bool
deriving DecidableEq, Repr

/-- A merged assignment: the raw record plus the denormalized course fields
attached by `getAllAssignments` (`src/api/client.js`, lines 111-119). -/
structure Assignment extends RawAssignment where
  course_name : String
  course_code : String
  course_color : Option String
  course_id : ℕ
  course_position : Option ℤ
deriving DecidableEq, Repr

/-- A course as consumed by the aggregator. -/
structure Course where
  id : ℕ
  name : String
  course_code : String
  custom_color : Option String
  dashboard_position : Option ℤ
deriving DecidableEq, Repr

/-! ### Temporal classifier (`src/utils/dates.js`) -/

/-- `isDueWithinDays(assignment, days)` from `src/utils/dates.js` lines 24-33:
`!due_at → false`, otherwise `dueDate >= now && dueDate <= now + days*24*60*60*1000`. -/
def isDueWithinDays (now : ℤ) (assignment : Assignment) (days : ℤ) : Bool :=
  match assignment.due_at with
  | none => false
  | some dueDate =>
    let daysFromNow := now + days * (24 * 60 * 60 * 1000)
    decide (now ≤ dueDate) && decide (dueDate ≤ daysFromNow)

/-- `isOverdue(assignment)` from `src/utils/dates.js` lines 38-46:
`!due_at → false`, otherwise `dueDate < now && !assignment.has_submitted_submissions`. -/
def isOverdue (now : ℤ) (assignment : Assignment) : Bool :=
  match assignment.due_at with
  | none => false
  | some dueDate => decide (dueDate < now) && !assignment.has_submitted_submissions

/-! ### Week arithmetic (`src/utils/dates.js` lines 179-208) -/

/-- JavaScript `Date.prototype.getDay` on an epoch-milliseconds timestamp:
the calendar day is `t / 86400000` (floor) and epoch day 0 is a Thursday. -/
def getDayOfWeek (t : ℤ) : ℤ :=
  (t / 86400000 + 4) % 7

/-- `getWeekStart(date)` from `src/utils/dates.js`: step back
`(day - weekStartDay + 7) % 7` calendar days, then `setHours(0,0,0,0)`. -/
def getWeekStart (weekStartDay : ℤ) (t : ℤ) : ℤ :=
  let day := getDayOfWeek t
  let diff := (day - weekStartDay + 7) % 7
  (t / 86400000 - diff) * 86400000

/-- `getWeekEnd(date)` from `src/utils/dates.js`: step forward
`(weekEndDay - day + 7) % 7` calendar days with `weekEndDay = (weekStartDay+6) % 7`,
then `setHours(23,59,59,999)`. -/
def getWeekEnd (weekStartDay : ℤ) (t : ℤ) : ℤ :=
  let weekEndDay := (weekStartDay + 6) % 7
  let diff := (weekEndDay - getDayOfWeek t + 7) % 7
  (t / 86400000 + diff) * 86400000 + 86399999

/-! ### Claim C3 -/

/-- Claim C3: with `now` fixed, `isDueWithinDays` is true iff a due timestamp
`D` exists with `now ≤ D ≤ now + days·86400s`; it is false when the due
timestamp is absent; and it is monotonic in `days`. -/
theorem claim_C3_isDueWithinDays (now : ℤ) (a : Assignment) (days : ℤ)
    (_hdays : 0 ≤ days) :
    (isDueWithinDays now a days = true ↔
      ∃ d, a.due_at = some d ∧ now ≤ d ∧ d ≤ now + days * 86400000) ∧
    (a.due_at = none → isDueWithinDays now a days = false) ∧
    (∀ days', days ≤ days' →
      isDueWithinDays now a days = true → isDueWithinDays now a days' = true) := by
  refine ⟨?_, ?_, ?_⟩
  · unfold isDueWithinDays
    cases h : a.due_at with
    | none => simp
    | some d =>
      simp only [Bool.and_eq_true, decide_eq_true_eq]
      constructor
      · rintro ⟨h1, h2⟩
        exact ⟨d, rfl, h1, by linarith⟩
      · rintro ⟨d', hd', h1, h2⟩
        cases hd'
        exact ⟨h1, by linarith⟩
  · intro h
    unfold isDueWithinDays
    rw [h]
  · intro days' hle
    unfold isDueWithinDays
    cases h : a.due_at with
    | none => simp
    | some d =>
      simp only [Bool.and_eq_true, decide_eq_true_eq]
      rintro ⟨h1, h2⟩
      exact ⟨h1, by nlinarith⟩

/-- A concrete sample assignment used by witnesses: due at `100000` ms,
not submitted. -/
def sampleAssignment : Assignment :=
  { id := 1, name := "hw", due_at := some 100000,
    has_submitted_submissions := false, course_name := "A",
    course_code := "A1", course_color := none, course_id := 7,
    course_position := some 1 }

/-- The sample assignment with its due timestamp in the past (`-5` ms). -/
def samplePastAssignment : Assignment :=
  { sampleAssignment with due_at := some (-5) }

/-- Witness for C3 at a concrete input: `now = 0`, an assignment due at
`100000` ms, `days = 1`. -/
theorem claim_C3_isDueWithinDays_witness :
    (0 : ℤ) ≤ 1 ∧
    ((isDueWithinDays 0 sampleAssignment 1 = true ↔
      ∃ d, sampleAssignment.due_at = some d ∧ (0 : ℤ) ≤ d ∧
        d ≤ 0 + 1 * 86400000) ∧
      (sampleAssignment.due_at = none →
        isDueWithinDays 0 sampleAssignment 1 = false) ∧
      (∀ days', (1 : ℤ) ≤ days' →
        isDueWithinDays 0 sampleAssignment 1 = true →
        isDueWithinDays 0 sampleAssignment days' = true)) :=
  ⟨by decide, claim_C3_isDueWithinDays 0 sampleAssignment 1 (by decide)⟩

/-! ### Claim C4 -/

/-- Claim C4: with `now` fixed, `isOverdue` is true iff a due timestamp `D`
exists, `D < now`, and the "already submitted by anyone" flag is false;
flipping the flag from false to true at a fixed `D < now` flips the result
from true to false; and an assignment without a due timestamp is never
overdue. -/
theorem claim_C4_isOverdue (now : ℤ) (a : Assignment) :
    (isOverdue now a = true ↔
      ∃ d, a.due_at = some d ∧ d < now ∧ a.has_submitted_submissions = false) ∧
    (∀ d, a.due_at = some d → d < now →
      isOverdue now { a with has_submitted_submissions := false } = true ∧
      isOverdue now { a with has_submitted_submissions := true } = false) ∧
    (a.due_at = none → isOverdue now a = false) := by
  refine ⟨?_, ?_, ?_⟩
  · unfold isOverdue
    cases h : a.due_at with
    | none => simp
    | some d =>
      simp only [Bool.and_eq_true, decide_eq_true_eq, Bool.not_eq_true']
      constructor
      · rintro ⟨h1, h2⟩
        exact ⟨d, rfl, h1, h2⟩
      · rintro ⟨d', hd', h1, h2⟩
        cases hd'
        exact ⟨h1, h2⟩
  · intro d hd hlt
    unfold isOverdue
    simp only [hd]
    constructor
    · simp only [Bool.and_eq_true, decide_eq_true_eq]
      exact ⟨hlt, rfl⟩
    · simp
  · intro h
    unfold isOverdue
    rw [h]

/-- Witness for C4: the sample assignment due at `-5` with `now = 0`, with
the submitted flag set each way. -/
theorem claim_C4_isOverdue_witness :
    isOverdue 0 { samplePastAssignment with has_submitted_submissions := false } = true ∧
    isOverdue 0 { samplePastAssignment with has_submitted_submissions := true } = false :=
  (claim_C4_isOverdue 0 samplePastAssignment).2.1 (-5) (by decide) (by decide)

/-! ### Claim C6 -/

/-- Claim C6: for every date `t` and week-start day `s ∈ 0..6`,
`getWeekStart s t` is the midnight of the most recent day with weekday `s`
that is `≤ t` (midnight of `t`'s own day when `t` falls on weekday `s`), and
`getWeekEnd s t` is `getWeekStart s t + 6 days` with time component
`23:59:59.999`, so the window is `[weekStart, weekStart + 6d 23:59:59.999]`. -/
theorem claim_C6_weekWindow (s t : ℤ) (hs0 : 0 ≤ s) (hs6 : s ≤ 6) :
    getWeekStart s t % 86400000 = 0 ∧
    getDayOfWeek (getWeekStart s t) = s ∧
    getWeekStart s t ≤ t ∧
    (∀ m : ℤ, m % 86400000 = 0 → getDayOfWeek m = s → m ≤ t →
      m ≤ getWeekStart s t) ∧
    (getDayOfWeek t = s → getWeekStart s t = t / 86400000 * 86400000) ∧
    getWeekEnd s t = getWeekStart s t + 6 * 86400000 + 86399999 := by
  unfold getWeekStart getWeekEnd getDayOfWeek
  dsimp only
  refine ⟨?_, ?_, ?_, ?_, ?_, ?_⟩
  · omega
  · omega
  · omega
  · intro m h1 h2 h3
    omega
  · intro h
    omega
  · omega

/-- Witness for C6: week-start day `s = 1` (Monday) at
`t = 100000000` ms (Friday, Jan 2 1970, 03:46:40). -/
theorem claim_C6_weekWindow_witness :
    getWeekStart 1 100000000 % 86400000 = 0 ∧
    getDayOfWeek (getWeekStart 1 100000000) = 1 ∧
    getWeekStart 1 100000000 ≤ 100000000 ∧
    (∀ m : ℤ, m % 86400000 = 0 → getDayOfWeek m = 1 → m ≤ 100000000 →
      m ≤ getWeekStart 1 100000000) ∧
    (getDayOfWeek 100000000 = 1 →
      getWeekStart 1 100000000 = 100000000 / 86400000 * 86400000) ∧
    getWeekEnd 1 100000000 = getWeekStart 1 100000000 + 6 * 86400000 + 86399999 :=
  claim_C6_weekWindow 1 100000000 (by decide) (by decide)

/-! ### Aggregator (`src/api/client.js` lines 102-132) -/

/-- The ways a per-course assignment fetch can fail: an HTTP error response
(`error.response.status` present) or a transport error with no response. -/
inductive FetchError where
  | http (status : ℕ)
  | network
deriving DecidableEq, Repr

/-- The course-metadata merge performed on each fetched assignment
(`src/api/client.js` lines 113-119): spread the raw assignment and attach
`course_name`, `course_code`, `course_color`, `course_id`, `course_position`. -/
def mergeCourse (course : Course) (assignment : RawAssignment) : Assignment :=
  { assignment with
    course_name := course.name,
    course_code := course.course_code,
    course_color := course.custom_color,
    course_id := course.id,
    course_position := course.dashboard_position }

/-- The catch-block test `error.response && error.response.status === 403`
(`src/api/client.js` line 124): true only for an HTTP response with status
403. -/
def isAccessRestricted : FetchError → Bool
  | FetchError.http status => status == 403
  | FetchError.network => false

/-- One iteration of the aggregation loop (`src/api/client.js` lines 107-129):
on success push the merged assignments, on a 403 response record the course
name in `skippedCourses`, on any other error skip silently (`continue`). -/
def aggregateStep (fetch : Course → Except FetchError (List RawAssignment))
    (acc : List Assignment × List String) (course : Course) :
    List Assignment × List String :=
  match fetch course with
  | Except.ok assignments => (acc.1 ++ assignments.map (mergeCourse course), acc.2)
  | Except.error error =>
    if isAccessRestricted error then (acc.1, acc.2 ++ [course.name]) else acc

/-- `getAllAssignments` from `src/api/client.js` lines 102-132, parameterised
by the per-course fetch oracle: fold the loop body over the course list
starting from empty `allAssignments` and `skippedCourses`. -/
def getAllAssignments (fetch : Course → Except FetchError (List RawAssignment))
    (courses : List Course) : List Assignment × List String :=
  courses.foldl (aggregateStep fetch) ([], [])

/-- The assignments a single course contributes to the aggregate: its merged
assignments when the fetch succeeds, nothing when it fails. -/
def courseContribution (fetch : Course → Except FetchError (List RawAssignment))
    (course : Course) : List Assignment :=
  match fetch course with
  | Except.ok assignments => assignments.map (mergeCourse course)
  | Except.error _ => []

/-- Whether the aggregation loop records a given course as skipped: its
fetch failed and the failure passed the 403 test. -/
def courseSkipped (fetch : Course → Except FetchError (List RawAssignment))
    (course : Course) : Bool :=
  match fetch course with
  | Except.ok _ => false
  | Except.error error => isAccessRestricted error

/-- Fold-accumulator characterisation of the aggregation loop. -/
theorem aggregate_foldl_eq (fetch : Course → Except FetchError (List RawAssignment))
    (courses : List Course) (acc : List Assignment × List String) :
    courses.foldl (aggregateStep fetch) acc =
      (acc.1 ++ courses.flatMap (courseContribution fetch),
       acc.2 ++ (courses.filter (courseSkipped fetch)).map Course.name) := by
  induction courses generalizing acc with
  | nil => simp
  | cons c rest ih =>
    simp only [List.foldl_cons, List.flatMap_cons, List.filter_cons]
    rw [ih]
    unfold aggregateStep courseContribution courseSkipped
    cases h : fetch c with
    | ok as => simp [h, List.append_assoc]
    | error e =>
      cases he : isAccessRestricted e with
      | false => simp [h, he]
      | true => simp [h, he, List.append_assoc]

/-! ### Claim C1 -/

/-- Any assignment contributed by a course comes from a successful fetch of
that course. -/
theorem mem_courseContribution
    (fetch : Course → Except FetchError (List RawAssignment))
    (c : Course) (a : Assignment) (ha : a ∈ courseContribution fetch c) :
    ∃ assignments, fetch c = Except.ok assignments ∧
      ∃ r ∈ assignments, a = mergeCourse c r := by
  unfold courseContribution at ha
  cases h : fetch c with
  | ok as =>
    rw [h] at ha
    simp only [List.mem_map] at ha
    obtain ⟨r, hr, hra⟩ := ha
    exact ⟨as, rfl, r, hr, hra.symm⟩
  | error e =>
    rw [h] at ha
    simp at ha

/-- Claim C1: the aggregator fetches each course in order; a 403-failing
course has its name appended to `skippedCourses` and contributes zero
assignments; any other failure is skipped silently; a successful course with
zero assignments contributes nothing and is not skipped; every assignment in
the result comes from a course whose fetch succeeded; and no single course
failure aborts aggregation of the remaining courses (each course's
contribution is exactly its own, independently of the others' outcomes). -/
theorem claim_C1_getAllAssignments
    (fetch : Course → Except FetchError (List RawAssignment))
    (courses : List Course) :
    (getAllAssignments fetch courses).1 =
      courses.flatMap (courseContribution fetch) ∧
    (getAllAssignments fetch courses).2 =
      (courses.filter (courseSkipped fetch)).map Course.name ∧
    (∀ c, courseSkipped fetch c = true ↔
      fetch c = Except.error (FetchError.http 403)) ∧
    (∀ c, fetch c = Except.error (FetchError.http 403) →
      courseContribution fetch c = []) ∧
    (∀ c e, fetch c = Except.error e → isAccessRestricted e = false →
      courseContribution fetch c = [] ∧ courseSkipped fetch c = false) ∧
    (∀ c, fetch c = Except.ok [] →
      courseContribution fetch c = [] ∧ courseSkipped fetch c = false) ∧
    (∀ a ∈ (getAllAssignments fetch courses).1,
      ∃ c ∈ courses, ∃ assignments, fetch c = Except.ok assignments ∧
        ∃ r ∈ assignments, a = mergeCourse c r) := by
  have hfold := aggregate_foldl_eq fetch courses ([], [])
  have h1 : (getAllAssignments fetch courses).1 =
      courses.flatMap (courseContribution fetch) := by
    unfold getAllAssignments
    rw [hfold]
    simp
  have h2 : (getAllAssignments fetch courses).2 =
      (courses.filter (courseSkipped fetch)).map Course.name := by
    unfold getAllAssignments
    rw [hfold]
    simp
  refine ⟨h1, h2, ?_, ?_, ?_, ?_, ?_⟩
  · intro c
    clear hfold h1 h2
    unfold courseSkipped
    cases h : fetch c with
    | ok as => simp
    | error e =>
      cases e with
      | http status => simp [isAccessRestricted]
      | network => simp [isAccessRestricted]
  · intro c hc
    unfold courseContribution
    rw [hc]
  · intro c e hc he
    refine ⟨?_, ?_⟩
    · unfold courseContribution
      rw [hc]
    · unfold courseSkipped
      rw [hc]
      exact he
  · intro c hc
    refine ⟨?_, ?_⟩
    · unfold courseContribution
      rw [hc]
      simp
    · unfold courseSkipped
      rw [hc]
  · intro a ha
    rw [h1] at ha
    simp only [List.mem_flatMap] at ha
    obtain ⟨c, hc, hac⟩ := ha
    exact ⟨c, hc, mem_courseContribution fetch c a hac⟩

/-- The spec's three-course aggregator example: course B's fetch returns a
403, courses A and C succeed with one assignment each. -/
def courseA : Course :=
  { id := 1, name := "A", course_code := "A1", custom_color := none,
    dashboard_position := some 1 }

/-- Course B of the aggregator example (its fetch fails with 403). -/
def courseB : Course :=
  { id := 2, name := "B", course_code := "B1", custom_color := none,
    dashboard_position := some 2 }

/-- Course C of the aggregator example. -/
def courseC : Course :=
  { id := 3, name := "C", course_code := "C1", custom_color := none,
    dashboard_position := some 3 }

/-- Raw assignment returned for course A in the example. -/
def rawA : RawAssignment :=
  { id := 10, name := "hwA", due_at := some 1000,
    has_submitted_submissions := false }

/-- Raw assignment returned for course C in the example. -/
def rawC : RawAssignment :=
  { id := 30, name := "hwC", due_at := some 3000,
    has_submitted_submissions := false }

/-- The fetch oracle of the aggregator example. -/
def exampleFetch (course : Course) : Except FetchError (List RawAssignment) :=
  if course.id = 1 then Except.ok [rawA]
  else if course.id = 2 then Except.error (FetchError.http 403)
  else Except.ok [rawC]

/-- Witness for C1 on the spec's example: the aggregate of `[A, B, C]` where
B fails with 403 contains exactly A's and C's merged assignments, and
`skippedCourses = ["B"]`. -/
theorem claim_C1_getAllAssignments_witness :
    ((getAllAssignments exampleFetch [courseA, courseB, courseC]).1 =
      [courseA, courseB, courseC].flatMap (courseContribution exampleFetch) ∧
     (getAllAssignments exampleFetch [courseA, courseB, courseC]).2 =
      ([courseA, courseB, courseC].filter
        (courseSkipped exampleFetch)).map Course.name ∧
     (∀ c, courseSkipped exampleFetch c = true ↔
       exampleFetch c = Except.error (FetchError.http 403)) ∧
     (∀ c, exampleFetch c = Except.error (FetchError.http 403) →
       courseContribution exampleFetch c = []) ∧
     (∀ c e, exampleFetch c = Except.error e → isAccessRestricted e = false →
       courseContribution exampleFetch c = [] ∧
         courseSkipped exampleFetch c = false) ∧
     (∀ c, exampleFetch c = Except.ok [] →
       courseContribution exampleFetch c = [] ∧
         courseSkipped exampleFetch c = false) ∧
     (∀ a ∈ (getAllAssignments exampleFetch [courseA, courseB, courseC]).1,
       ∃ c ∈ [courseA, courseB, courseC], ∃ assignments,
         exampleFetch c = Except.ok assignments ∧
         ∃ r ∈ assignments, a = mergeCourse c r)) ∧
    (getAllAssignments exampleFetch [courseA, courseB, courseC]).1 =
      [mergeCourse courseA rawA, mergeCourse courseC rawC] ∧
    (getAllAssignments exampleFetch [courseA, courseB, courseC]).2 = ["B"] :=
  ⟨claim_C1_getAllAssignments exampleFetch [courseA, courseB, courseC],
   by decide, by decide⟩

/-! ### Upload driver (`src/commands/assignment.js` lines 107-155) -/

/-- The step-2 response of the upload driver: the HTTP status accepted by
`validateStatus` and the optional `location` response header. -/
structure Step2Response where
  status : ℕ
  location : Option String
deriving DecidableEq, Repr

/-- How the modelled driver can fail after step 1: the step-2 POST is
rejected by `validateStatus` (axios throws), or the accepted step-2 response
carries no `location` header
(`throw new Error('No location header returned from upload')`). -/
inductive UploadFailure where
  | badStatus (status : ℕ)
  | noLocation
deriving DecidableEq, Repr

/-- `validateStatus: (status) => status === 301 || status < 400` from
`src/commands/assignment.js` line 139. -/
def validateStatus (status : ℕ) : Bool :=
  status == 301 || status < 400

/-- The upload driver from the step-2 POST onward
(`src/commands/assignment.js` lines 135-155), parameterised by the step-2
response and the step-3 GET oracle.  The second component of the result is
the list of URLs the driver actually GETs in step 3, so "step 3 was never
issued" is `= []`.  On success the driver returns `confirmResponse.data`,
the body of the GET of the step-2 `location` header. -/
def uploadFile {α : Type} (step2 : Step2Response) (confirmGet : String → α) :
    Except UploadFailure α × List String :=
  if validateStatus step2.status then
    match step2.location with
    | none => (Except.error UploadFailure.noLocation, [])
    | some confirmUrl => (Except.ok (confirmGet confirmUrl), [confirmUrl])
  else (Except.error (UploadFailure.badStatus step2.status), [])

/-! ### Claim C2 -/

/-- Claim C2: for every step-2 response accepted by `validateStatus` that
carries no `location` header, the driver fails with the protocol-violation
error and issues no step-3 request; conversely, when a `location` is
present, step 3 GETs exactly that location and the driver returns its body
as the final confirmed file descriptor. -/
theorem claim_C2_uploadFile {α : Type} (step2 : Step2Response)
    (confirmGet : String → α) (hok : validateStatus step2.status = true) :
    (step2.location = none →
      uploadFile step2 confirmGet =
        (Except.error UploadFailure.noLocation, [])) ∧
    (∀ url, step2.location = some url →
      uploadFile step2 confirmGet = (Except.ok (confirmGet url), [url])) := by
  constructor
  · intro hnone
    unfold uploadFile
    rw [hok, hnone]
    simp
  · intro url hsome
    unfold uploadFile
    rw [hok, hsome]
    simp

/-- Witness for C2: a 301 step-2 response without a `location` header, and a
200 response with one. -/
theorem claim_C2_uploadFile_witness :
    validateStatus 301 = true ∧
    (uploadFile { status := 301, location := none } (fun url => url) =
      (Except.error UploadFailure.noLocation, []) ∧
     uploadFile { status := 200, location := some "https://c/confirm" }
        (fun url => url) =
      (Except.ok "https://c/confirm", ["https://c/confirm"])) :=
  ⟨by decide,
   (claim_C2_uploadFile { status := 301, location := none }
      (fun url => url) (by decide)).1 rfl,
   (claim_C2_uploadFile { status := 200, location := some "https://c/confirm" }
      (fun url => url) (by decide)).2 "https://c/confirm" rfl⟩

/-! ### Color resolver (`src/ui/display.js` lines 12-34) -/

/-- A chalk color function: one of the six fixed palette colors or a
custom-hex color. -/
inductive ChalkColor where
  | cyan
  | green
  | yellow
  | magenta
  | blue
  | red
  | hex (color : String)
deriving DecidableEq, Repr

/-- The fallback palette
`[chalk.cyan, chalk.green, chalk.yellow, chalk.magenta, chalk.blue, chalk.red]`
(`src/ui/display.js` line 27). -/
def palette : List ChalkColor :=
  [ChalkColor.cyan, ChalkColor.green, ChalkColor.yellow,
   ChalkColor.magenta, ChalkColor.blue, ChalkColor.red]

/-- `String(key).split('').reduce((acc, char) => acc + char.charCodeAt(0), 0)`
guarded by `key ? ... : 0` (`src/ui/display.js` line 28): the sum of the
key's character codes, `0` for a falsy (empty) key. -/
def keyHash (key : String) : ℕ :=
  if key.isEmpty then 0 else (key.data.map Char.toNat).sum

/-- The palette entry selected by the fallback: `colors[hash % colors.length]`
(`src/ui/display.js` line 29). -/
def paletteAt (hash : ℕ) : ChalkColor :=
  palette.get ⟨hash % 6, by have := Nat.mod_lt hash (show 0 < 6 by decide); simpa [palette] using this⟩

/-- The cache key `courseId || courseName` (`src/ui/display.js` line 14):
the stringified course id when present and truthy (non-zero), else the
course name.  A JavaScript `Map` keyed by strings is modelled as an
association list; `Map.set` on a fresh key appends. -/
def courseColorKey (courseName : String) (courseId : Option ℕ) : String :=
  match courseId with
  | some i => if i = 0 then courseName else toString i
  | none => courseName

/-- `getCourseColor(courseName, courseId, customColor)` from
`src/ui/display.js` lines 12-34, with the process-wide cache threaded
explicitly: return the cached entry if present; otherwise prefer the custom
color, falling back to the hash-selected palette entry; cache and return the
chosen color. -/
def getCourseColor (cache : List (String × ChalkColor)) (courseName : String)
    (courseId : Option ℕ) (customColor : Option String) :
    ChalkColor × List (String × ChalkColor) :=
  let key := courseColorKey courseName courseId
  match cache.lookup key with
  | some colorFunc => (colorFunc, cache)
  | none =>
    let colorFunc :=
      match customColor with
      | some color => ChalkColor.hex color
      | none => paletteAt (keyHash key)
    (colorFunc, cache ++ [(key, colorFunc)])

/-- Looking a key up past a prefix that does not contain it. -/
theorem lookup_append_of_none (l₁ l₂ : List (String × ChalkColor)) (k : String)
    (h : l₁.lookup k = none) : (l₁ ++ l₂).lookup k = l₂.lookup k := by
  induction l₁ with
  | nil => simp
  | cons p rest ih =>
    rw [List.cons_append]
    rw [List.lookup] at h ⊢
    cases hk : (k == p.1) with
    | true => simp [hk] at h
    | false =>
      simp only [hk] at h ⊢
      exact ih h

/-! ### Claim C9 -/

/-- Claim C9: for a fixed key and fixed custom-color input the resolver is
stable within a process (a repeat call returns the identical color and
leaves the cache unchanged); on a fresh (empty) cache a call with a custom
color returns exactly that custom color, and a call without one returns the
palette entry at index `(sum of the key's character codes) mod 6`, which is
then cached. -/
theorem claim_C9_getCourseColor (cache : List (String × ChalkColor))
    (courseName : String) (courseId : Option ℕ) (customColor : Option String) :
    (getCourseColor (getCourseColor cache courseName courseId customColor).2
        courseName courseId customColor =
      ((getCourseColor cache courseName courseId customColor).1,
       (getCourseColor cache courseName courseId customColor).2)) ∧
    (∀ color, customColor = some color →
      (getCourseColor [] courseName courseId customColor).1 =
        ChalkColor.hex color) ∧
    (customColor = none →
      getCourseColor [] courseName courseId none =
        (paletteAt (keyHash (courseColorKey courseName courseId)),
         [(courseColorKey courseName courseId,
           paletteAt (keyHash (courseColorKey courseName courseId)))])) := by
  refine ⟨?_, ?_, ?_⟩
  · unfold getCourseColor
    cases h : cache.lookup (courseColorKey courseName courseId) with
    | some colorFunc => simp [h]
    | none =>
      simp only [h]
      have hl : ((cache ++ [(courseColorKey courseName courseId,
          match customColor with
          | some color => ChalkColor.hex color
          | none => paletteAt (keyHash (courseColorKey courseName courseId)))]).lookup
            (courseColorKey courseName courseId)) =
          some (match customColor with
          | some color => ChalkColor.hex color
          | none => paletteAt (keyHash (courseColorKey courseName courseId))) := by
        rw [lookup_append_of_none cache _ _ h]
        simp [List.lookup]
      simp [hl]
  · intro color hc
    subst hc
    unfold getCourseColor
    simp
  · intro hc
    subst hc
    unfold getCourseColor
    simp

/-- Witness for C9: on a fresh cache, "Ethics" (id 42) with custom color
`#3366ff` resolves to that hex color, and "Algorithms" (id 7) without one
resolves to the hash-selected palette entry and caches it. -/
theorem claim_C9_getCourseColor_witness :
    (getCourseColor [] "Ethics" (some 42) (some "#3366ff")).1 =
      ChalkColor.hex "#3366ff" ∧
    getCourseColor [] "Algorithms" (some 7) none =
      (paletteAt (keyHash (courseColorKey "Algorithms" (some 7))),
       [(courseColorKey "Algorithms" (some 7),
         paletteAt (keyHash (courseColorKey "Algorithms" (some 7))))]) :=
  ⟨(claim_C9_getCourseColor [] "Ethics" (some 42) (some "#3366ff")).2.1
     "#3366ff" rfl,
   (claim_C9_getCourseColor [] "Algorithms" (some 7) none).2.2 rfl⟩

/-! ### Ordering engine (`src/utils/dates.js` lines 64-82 and 248-261) -/

/-- Case-sensitive lexicographic comparison of character lists by character
code, returning -1/0/1.  This is the model of
`String.prototype.localeCompare` (see the header). -/
def charListCompare : List Char → List Char → ℤ
  | [], [] => 0
  | [], _ :: _ => -1
  | _ :: _, [] => 1
  | a :: as, b :: bs =>
    if a.toNat < b.toNat then -1
    else if b.toNat < a.toNat then 1
    else charListCompare as bs

/-- `a.localeCompare(b)` modelled as code-unit-lexicographic comparison. -/
def localeCompare (a b : String) : ℤ :=
  charListCompare a.data b.data

/-- `charListCompare` is antisymmetric. -/
theorem charListCompare_antisym (a b : List Char) :
    charListCompare a b = -charListCompare b a := by
  induction a generalizing b with
  | nil => cases b <;> simp [charListCompare]
  | cons x as ih =>
    cases b with
    | nil => simp [charListCompare]
    | cons y bs =>
      simp only [charListCompare]
      split_ifs with h1 h2 <;> try omega
      exact ih bs

/-- `charListCompare` comparisons compose transitively. -/
theorem charListCompare_trans (a b c : List Char)
    (h1 : charListCompare a b ≤ 0) (h2 : charListCompare b c ≤ 0) :
    charListCompare a c ≤ 0 := by
  induction a generalizing b c with
  | nil => cases c <;> simp [charListCompare]
  | cons x as ih =>
    cases b with
    | nil => simp [charListCompare] at h1
    | cons y bs =>
      cases c with
      | nil => simp [charListCompare] at h2
      | cons z cs =>
        simp only [charListCompare] at h1 h2 ⊢
        split_ifs at h1 h2 ⊢ <;> try omega
        all_goals exact ih bs cs h1 h2

/-- `localeCompare` is total: for any two strings one direction is `≤ 0`. -/
theorem localeCompare_total (a b : String) :
    localeCompare a b ≤ 0 ∨ localeCompare b a ≤ 0 := by
  unfold localeCompare
  rw [charListCompare_antisym]
  omega

/-- The comparator of `sortByDueDate` (`src/utils/dates.js` lines 64-82):
no-due-date items compare after dated ones, dated items compare by
timestamp, and ties (same timestamp, or both dateless) compare by
`localeCompare` of course names. -/
def sortByDueDateCompare (a b : Assignment) : ℤ :=
  match a.due_at, b.due_at with
  | none, none => localeCompare a.course_name b.course_name
  | none, some _ => 1
  | some _, none => -1
  | some dateA, some dateB =>
    if dateA = dateB then localeCompare a.course_name b.course_name
    else dateA - dateB

/-- `sortByDueDate(assignments)`: `Array.prototype.sort` with the comparator
above, modelled as a stable merge sort. -/
def sortByDueDate (assignments : List Assignment) : List Assignment :=
  assignments.mergeSort (fun a b => decide (sortByDueDateCompare a b ≤ 0))

/-- The comparator of `sortByCoursePositionThenDate` (`src/utils/dates.js`
lines 248-261): dashboard position first (absent = 999), then due timestamp
with no-date items last and no further tie-break. -/
def sortByCoursePositionThenDateCompare (a b : Assignment) : ℤ :=
  let posA := a.course_position.getD 999
  let posB := b.course_position.getD 999
  if posA ≠ posB then posA - posB
  else
    match a.due_at, b.due_at with
    | none, none => 0
    | none, some _ => 1
    | some _, none => -1
    | some dateA, some dateB => dateA - dateB

/-- `sortByCoursePositionThenDate(assignments)`: `Array.prototype.sort` with
the comparator above, modelled as a stable merge sort. -/
def sortByCoursePositionThenDate (assignments : List Assignment) :
    List Assignment :=
  assignments.mergeSort
    (fun a b => decide (sortByCoursePositionThenDateCompare a b ≤ 0))

/-- The due-date comparator composes transitively. -/
theorem sortByDueDateCompare_trans (a b c : Assignment)
    (h1 : sortByDueDateCompare a b ≤ 0) (h2 : sortByDueDateCompare b c ≤ 0) :
    sortByDueDateCompare a c ≤ 0 := by
  revert h1 h2
  unfold sortByDueDateCompare localeCompare
  cases a.due_at <;> cases b.due_at <;> cases c.due_at <;> dsimp only <;>
    intro h1 h2 <;> try omega
  · exact charListCompare_trans _ _ _ h1 h2
  · split_ifs at h1 h2 ⊢ <;> try omega
    exact charListCompare_trans _ _ _ h1 h2

/-- The due-date comparator is total. -/
theorem sortByDueDateCompare_total (a b : Assignment) :
    sortByDueDateCompare a b ≤ 0 ∨ sortByDueDateCompare b a ≤ 0 := by
  unfold sortByDueDateCompare localeCompare
  cases a.due_at <;> cases b.due_at <;> dsimp only
  · rw [charListCompare_antisym]
    omega
  · omega
  · omega
  · split_ifs with h1 h2 <;> try omega
    rw [charListCompare_antisym]
    omega

/-- The position-then-date comparator composes transitively. -/
theorem sortByCoursePositionThenDateCompare_trans (a b c : Assignment)
    (h1 : sortByCoursePositionThenDateCompare a b ≤ 0)
    (h2 : sortByCoursePositionThenDateCompare b c ≤ 0) :
    sortByCoursePositionThenDateCompare a c ≤ 0 := by
  revert h1 h2
  unfold sortByCoursePositionThenDateCompare
  dsimp only
  cases a.due_at <;> cases b.due_at <;> cases c.due_at <;>
    dsimp only <;> split_ifs <;> intro h1 h2 <;> omega

/-- The position-then-date comparator is total. -/
theorem sortByCoursePositionThenDateCompare_total (a b : Assignment) :
    sortByCoursePositionThenDateCompare a b ≤ 0 ∨
      sortByCoursePositionThenDateCompare b a ≤ 0 := by
  unfold sortByCoursePositionThenDateCompare
  dsimp only
  cases a.due_at <;> cases b.due_at <;> dsimp only <;> split_ifs <;> omega

/-- Boolean form of transitivity for the due-date comparator. -/
theorem dueLe_trans (a b c : Assignment)
    (h1 : decide (sortByDueDateCompare a b ≤ 0) = true)
    (h2 : decide (sortByDueDateCompare b c ≤ 0) = true) :
    decide (sortByDueDateCompare a c ≤ 0) = true := by
  simp only [decide_eq_true_eq] at h1 h2 ⊢
  exact sortByDueDateCompare_trans a b c h1 h2

/-- Boolean form of totality for the due-date comparator. -/
theorem dueLe_total (a b : Assignment) :
    (decide (sortByDueDateCompare a b ≤ 0) ||
      decide (sortByDueDateCompare b a ≤ 0)) = true := by
  simp only [Bool.or_eq_true, decide_eq_true_eq]
  exact sortByDueDateCompare_total a b

/-- A nonpositive due-date comparison between two dated items bounds their
timestamps. -/
theorem dueCompare_le_dates (x y : Assignment) (dx dy : ℤ)
    (h : sortByDueDateCompare x y ≤ 0) (hx : x.due_at = some dx)
    (hy : y.due_at = some dy) : dx ≤ dy := by
  unfold sortByDueDateCompare at h
  rw [hx, hy] at h
  dsimp only at h
  split_ifs at h with he
  · omega
  · omega

/-- A nonpositive due-date comparison out of a dateless item forces the
other side to be dateless as well. -/
theorem dueCompare_none (x y : Assignment)
    (h : sortByDueDateCompare x y ≤ 0) (hx : x.due_at = none) :
    y.due_at = none := by
  unfold sortByDueDateCompare at h
  rw [hx] at h
  cases hy : y.due_at with
  | none => rfl
  | some dy =>
    rw [hy] at h
    dsimp only at h
    omega

/-- On a tie (both dateless, or identical timestamps) a nonpositive
comparison is exactly a nonpositive course-name comparison. -/
theorem dueCompare_tie (x y : Assignment)
    (h : sortByDueDateCompare x y ≤ 0)
    (htie : (x.due_at = none ∧ y.due_at = none) ∨
      ∃ d, x.due_at = some d ∧ y.due_at = some d) :
    localeCompare x.course_name y.course_name ≤ 0 := by
  unfold sortByDueDateCompare at h
  rcases htie with ⟨hx, hy⟩ | ⟨d, hx, hy⟩
  · rw [hx, hy] at h
    exact h
  · rw [hx, hy] at h
    dsimp only at h
    split_ifs at h with he
    · exact h
    · omega

/-! ### Claim C7 -/

/-- Claim C7: `sortByDueDate` returns a permutation of its input in stable
ascending order by due timestamp: dated items are ordered by timestamp,
every dateless item comes after every dated one regardless of input order,
and ties (identical timestamps, or two dateless items) are ordered by the
case-sensitive lexical comparison of course names; items comparing equal
keep their input order (stability, stated as sublist preservation). -/
theorem claim_C7_sortByDueDate (l : List Assignment) :
    (sortByDueDate l).Perm l ∧
    (sortByDueDate l).Pairwise
      (fun x y => ∀ dx ∈ x.due_at, ∀ dy ∈ y.due_at, dx ≤ dy) ∧
    (sortByDueDate l).Pairwise
      (fun x y => x.due_at = none → y.due_at = none) ∧
    (sortByDueDate l).Pairwise
      (fun x y => ((x.due_at = none ∧ y.due_at = none) ∨
          ∃ d, x.due_at = some d ∧ y.due_at = some d) →
        localeCompare x.course_name y.course_name ≤ 0) ∧
    (∀ x y, sortByDueDateCompare x y = 0 → [x, y].Sublist l →
      [x, y].Sublist (sortByDueDate l)) := by
  have hsorted := List.sorted_mergeSort dueLe_trans dueLe_total l
  have hle : (sortByDueDate l).Pairwise (fun x y => sortByDueDateCompare x y ≤ 0) := by
    unfold sortByDueDate
    exact hsorted.imp (fun h => by simpa using h)
  refine ⟨List.mergeSort_perm l _, ?_, ?_, ?_, ?_⟩
  · exact hle.imp (fun h dx hdx dy hdy =>
      dueCompare_le_dates _ _ dx dy h (Option.mem_def.mp hdx) (Option.mem_def.mp hdy))
  · exact hle.imp (fun h hx => dueCompare_none _ _ h hx)
  · exact hle.imp (fun h htie => dueCompare_tie _ _ h htie)
  · intro x y hxy hsub
    unfold sortByDueDate
    refine List.sublist_mergeSort dueLe_trans dueLe_total ?_ hsub
    refine List.pairwise_cons.mpr ⟨?_, by simp⟩
    intro b hb
    rw [List.mem_singleton] at hb
    subst hb
    simp only [decide_eq_true_eq]
    omega

/-- A duplicate of the sample assignment with a different id: same due
timestamp and same course name, so it compares equal. -/
def sampleAssignmentTwin : Assignment :=
  { sampleAssignment with id := 2 }

/-- Witness for C7: two assignments with identical due timestamps and course
names keep their input order in the sorted output. -/
theorem claim_C7_sortByDueDate_witness :
    sortByDueDateCompare sampleAssignment sampleAssignmentTwin = 0 ∧
    [sampleAssignment, sampleAssignmentTwin].Sublist
      (sortByDueDate [sampleAssignment, sampleAssignmentTwin]) :=
  ⟨by decide,
   (claim_C7_sortByDueDate [sampleAssignment, sampleAssignmentTwin]).2.2.2.2
     sampleAssignment sampleAssignmentTwin (by decide) (List.Sublist.refl _)⟩

/-! ### Claim C10: in-place sorting -/

/-- A heap of JavaScript arrays of assignments, addressed by reference. -/
def ArrayHeap : Type := ℕ → List Assignment

/-- Updating one array in the heap. -/
def heapUpdate (h : ArrayHeap) (r : ℕ) (v : List Assignment) : ArrayHeap :=
  fun r' => if r' = r then v else h r'

/-- `Array.prototype.sort(cmp)` per ECMA-262: sorts the receiver in place
(the heap cell is replaced by the stably sorted contents) and evaluates to
the receiver itself, not a copy. -/
def jsArraySort (le : Assignment → Assignment → Bool) (h : ArrayHeap)
    (r : ℕ) : ArrayHeap × ℕ :=
  (heapUpdate h r ((h r).mergeSort le), r)

/-- `sortByDueDate` as executed on the heap: the body is exactly
`return assignments.sort(comparator)` (`src/utils/dates.js` line 65), i.e.
the builtin in-place sort applied directly to the argument array — no copy
is taken. -/
def sortByDueDateOnHeap (h : ArrayHeap) (r : ℕ) : ArrayHeap × ℕ :=
  jsArraySort (fun a b => decide (sortByDueDateCompare a b ≤ 0)) h r

/-- `sortByCoursePositionThenDate` as executed on the heap
(`src/utils/dates.js` line 249): `return assignments.sort(comparator)`. -/
def sortByCoursePositionThenDateOnHeap (h : ArrayHeap) (r : ℕ) :
    ArrayHeap × ℕ :=
  jsArraySort (fun a b => decide (sortByCoursePositionThenDateCompare a b ≤ 0)) h r

/-- Claim C10: both sorts mutate their argument array in place and return
the very same array reference: the returned reference is the argument, the
cell now holds the sorted permutation of its old contents (the pure sort of
the old value — same elements, only the order changed), and every other
array in the heap is untouched. -/
theorem claim_C10_inPlaceSorts (h : ArrayHeap) (r : ℕ) :
    ((sortByDueDateOnHeap h r).2 = r ∧
     (sortByDueDateOnHeap h r).1 r = sortByDueDate (h r) ∧
     ((sortByDueDateOnHeap h r).1 r).Perm (h r) ∧
     (∀ r', r' ≠ r → (sortByDueDateOnHeap h r).1 r' = h r')) ∧
    ((sortByCoursePositionThenDateOnHeap h r).2 = r ∧
     (sortByCoursePositionThenDateOnHeap h r).1 r =
       sortByCoursePositionThenDate (h r) ∧
     ((sortByCoursePositionThenDateOnHeap h r).1 r).Perm (h r) ∧
     (∀ r', r' ≠ r →
       (sortByCoursePositionThenDateOnHeap h r).1 r' = h r')) := by
  refine ⟨⟨rfl, ?_, ?_, ?_⟩, ⟨rfl, ?_, ?_, ?_⟩⟩
  · unfold sortByDueDateOnHeap jsArraySort heapUpdate sortByDueDate
    simp
  · unfold sortByDueDateOnHeap jsArraySort heapUpdate
    simp only [if_pos rfl]
    exact List.mergeSort_perm (h r) _
  · intro r' hr'
    unfold sortByDueDateOnHeap jsArraySort heapUpdate
    simp [hr']
  · unfold sortByCoursePositionThenDateOnHeap jsArraySort heapUpdate
      sortByCoursePositionThenDate
    simp
  · unfold sortByCoursePositionThenDateOnHeap jsArraySort heapUpdate
    simp only [if_pos rfl]
    exact List.mergeSort_perm (h r) _
  · intro r' hr'
    unfold sortByCoursePositionThenDateOnHeap jsArraySort heapUpdate
    simp [hr']

/-- A concrete two-array heap for the C10 witness. -/
def sampleHeap : ArrayHeap :=
  fun _ => [samplePastAssignment, sampleAssignment]

/-- Witness for C10: sorting the array at reference 0 returns reference 0
and leaves the array at reference 1 untouched. -/
theorem claim_C10_inPlaceSorts_witness :
    (sortByDueDateOnHeap sampleHeap 0).2 = 0 ∧
    (sortByDueDateOnHeap sampleHeap 0).1 1 = sampleHeap 1 ∧
    (sortByCoursePositionThenDateOnHeap sampleHeap 0).2 = 0 :=
  ⟨(claim_C10_inPlaceSorts sampleHeap 0).1.1,
   (claim_C10_inPlaceSorts sampleHeap 0).1.2.2.2 1 (by decide),
   (claim_C10_inPlaceSorts sampleHeap 0).2.1⟩

/-! ### Week grouping (`src/utils/dates.js` lines 266-296) -/

/-- A week group as built by `groupByWeek`: the `weekStart` timestamp (the
`Map` key is `weekStart.getTime()`, which in the integer model coincides
with the stored `weekStart` date) and the member assignments.  The display
`label` (a locale-formatted string involving "now") is not modelled. -/
structure WeekGroup where
  weekStart : ℤ
  assignments : List Assignment
deriving DecidableEq, Repr

/-- The week-start key of an assignment: `getWeekStart(new Date(due_at))`
when a due timestamp exists. -/
def dueKey (weekStartDay : ℤ) (a : Assignment) : Option ℤ :=
  a.due_at.map (getWeekStart weekStartDay)

/-- `groups.get(key).assignments.push(assignment)`, creating the entry if
`!groups.has(key)` (`src/utils/dates.js` lines 275-285): a JavaScript `Map`
preserves insertion order, so it is an association list where a fresh key is
appended at the end. -/
def pushToGroup (key : ℤ) (a : Assignment) : List WeekGroup → List WeekGroup
  | [] => [⟨key, [a]⟩]
  | g :: gs =>
    if g.weekStart = key then ⟨g.weekStart, g.assignments ++ [a]⟩ :: gs
    else g :: pushToGroup key a gs

/-- The accumulation loop of `groupByWeek` (`src/utils/dates.js` lines
269-286): skip assignments without a due date, otherwise push into the
group keyed by the assignment's week start. -/
def collectWeeks (weekStartDay : ℤ) :
    List Assignment → List WeekGroup → List WeekGroup
  | [], groups => groups
  | a :: rest, groups =>
    match a.due_at with
    | none => collectWeeks weekStartDay rest groups
    | some due =>
      collectWeeks weekStartDay rest
        (pushToGroup (getWeekStart weekStartDay due) a groups)

/-- `groupByWeek(assignments)` from `src/utils/dates.js` lines 266-296:
accumulate into the insertion-ordered map, sort the groups chronologically
by `(a, b) => a.weekStart - b.weekStart`, then sort each group's members
with `sortByCoursePositionThenDate`. -/
def groupByWeek (weekStartDay : ℤ) (assignments : List Assignment) :
    List WeekGroup :=
  let sortedWeeks := (collectWeeks weekStartDay assignments []).mergeSort
    (fun g1 g2 => decide (g1.weekStart - g2.weekStart ≤ 0))
  sortedWeeks.map
    (fun week => ⟨week.weekStart, sortByCoursePositionThenDate week.assignments⟩)

/-- The keys of a group list, in order. -/
def groupKeys (gs : List WeekGroup) : List ℤ :=
  gs.map WeekGroup.weekStart

/-- The member list of the first group with a given key (`[]` if absent). -/
def findAssignments (k : ℤ) : List WeekGroup → List Assignment
  | [] => []
  | g :: gs => if g.weekStart = k then g.assignments else findAssignments k gs

/-- Pushing extends the key list with the key exactly when it is fresh. -/
theorem groupKeys_pushToGroup (key : ℤ) (a : Assignment) (gs : List WeekGroup) :
    groupKeys (pushToGroup key a gs) =
      if key ∈ groupKeys gs then groupKeys gs else groupKeys gs ++ [key] := by
  induction gs with
  | nil => simp [pushToGroup, groupKeys]
  | cons g rest ih =>
    unfold pushToGroup
    by_cases hk : g.weekStart = key
    · simp [hk, groupKeys]
    · simp only [if_neg hk, groupKeys, List.map_cons, List.mem_cons]
      rw [show (pushToGroup key a rest).map WeekGroup.weekStart =
        groupKeys (pushToGroup key a rest) from rfl, ih]
      simp only [groupKeys, List.mem_map, Ne.symm hk, false_or]
      split_ifs <;> rfl

/-- How pushing affects lookups: the pushed key's member list gains the
assignment at the end, every other key is untouched. -/
theorem findAssignments_pushToGroup (k key : ℤ) (a : Assignment)
    (gs : List WeekGroup) :
    findAssignments k (pushToGroup key a gs) =
      if k = key then findAssignments k gs ++ [a] else findAssignments k gs := by
  induction gs with
  | nil =>
    unfold pushToGroup findAssignments
    by_cases hk : k = key
    · simp [hk, findAssignments]
    · simp [Ne.symm hk, hk, findAssignments]
  | cons g rest ih =>
    unfold pushToGroup
    by_cases hgk : g.weekStart = key
    · rw [if_pos hgk]
      subst hgk
      unfold findAssignments
      try dsimp only
      split_ifs <;> first | rfl | omega
    · rw [if_neg hgk]
      unfold findAssignments
      try dsimp only
      rw [ih]
      split_ifs <;> first | rfl | omega

/-- Pushing preserves distinctness of the keys. -/
theorem groupKeys_nodup_pushToGroup (key : ℤ) (a : Assignment)
    (gs : List WeekGroup) (h : (groupKeys gs).Nodup) :
    (groupKeys (pushToGroup key a gs)).Nodup := by
  rw [groupKeys_pushToGroup]
  by_cases hmem : key ∈ groupKeys gs
  · simpa [hmem] using h
  · simp only [if_neg hmem]
    simp [List.nodup_append, h, hmem]

/-- After the accumulation loop, the member list at each key is the initial
member list followed by exactly the input assignments whose week-start key
matches, in input order. -/
theorem findAssignments_collectWeeks (s : ℤ) (l : List Assignment)
    (gs : List WeekGroup) (k : ℤ) :
    findAssignments k (collectWeeks s l gs) =
      findAssignments k gs ++
        l.filter (fun a => decide (dueKey s a = some k)) := by
  induction l generalizing gs with
  | nil => simp [collectWeeks]
  | cons a rest ih =>
    unfold collectWeeks
    cases ha : a.due_at with
    | none =>
      rw [ih]
      have : dueKey s a = none := by simp [dueKey, ha]
      simp [List.filter_cons, this]
    | some due =>
      rw [ih, findAssignments_pushToGroup]
      have hkey : dueKey s a = some (getWeekStart s due) := by
        simp [dueKey, ha]
      by_cases hk : k = getWeekStart s due
      · have : dueKey s a = some k := by rw [hkey, hk]
        simp [hk, List.filter_cons, this, List.append_assoc]
      · have : ¬(dueKey s a = some k) := by
          rw [hkey]
          simp
          omega
        simp [hk, List.filter_cons, this]

/-- After the accumulation loop, a key is present iff it was present
initially or is the week-start key of some dated input assignment. -/
theorem groupKeys_collectWeeks (s : ℤ) (l : List Assignment)
    (gs : List WeekGroup) (k : ℤ) :
    k ∈ groupKeys (collectWeeks s l gs) ↔
      k ∈ groupKeys gs ∨ k ∈ l.filterMap (dueKey s) := by
  induction l generalizing gs with
  | nil => simp [collectWeeks]
  | cons a rest ih =>
    unfold collectWeeks
    cases ha : a.due_at with
    | none =>
      rw [ih]
      have : dueKey s a = none := by simp [dueKey, ha]
      simp [List.filterMap_cons, this]
    | some due =>
      rw [ih, groupKeys_pushToGroup]
      have hkey : dueKey s a = some (getWeekStart s due) := by
        simp [dueKey, ha]
      simp only [List.filterMap_cons, hkey, List.mem_cons]
      by_cases hmem : getWeekStart s due ∈ groupKeys gs
      · simp only [if_pos hmem]
        constructor
        · intro h
          exact h.elim (fun h' => Or.inl h') (fun h' => Or.inr (Or.inr h'))
        · rintro (h' | h' | h')
          · exact Or.inl h'
          · exact Or.inl (h' ▸ hmem)
          · exact Or.inr h'
      · simp only [if_neg hmem, List.mem_append, List.mem_singleton]
        constructor
        · rintro ((h' | h') | h')
          · exact Or.inl h'
          · exact Or.inr (Or.inl h')
          · exact Or.inr (Or.inr h')
        · rintro (h' | h' | h')
          · exact Or.inl (Or.inl h')
          · exact Or.inl (Or.inr h')
          · exact Or.inr h'

/-- The accumulation loop preserves distinctness of the keys. -/
theorem groupKeys_nodup_collectWeeks (s : ℤ) (l : List Assignment)
    (gs : List WeekGroup) (h : (groupKeys gs).Nodup) :
    (groupKeys (collectWeeks s l gs)).Nodup := by
  induction l generalizing gs with
  | nil => simpa [collectWeeks] using h
  | cons a rest ih =>
    unfold collectWeeks
    cases a.due_at with
    | none => exact ih gs h
    | some due => exact ih _ (groupKeys_nodup_pushToGroup _ _ _ h)

/-- In a group list with distinct keys, each member group's assignment list
is what lookup at its key returns. -/
theorem assignments_eq_findAssignments (gs : List WeekGroup) (g : WeekGroup)
    (hg : g ∈ gs) (hnd : (groupKeys gs).Nodup) :
    g.assignments = findAssignments g.weekStart gs := by
  induction gs with
  | nil => cases hg
  | cons g0 rest ih =>
    unfold findAssignments
    rcases List.mem_cons.mp hg with heq | hmem
    · subst heq
      simp
    · have hne : ¬(g0.weekStart = g.weekStart) := by
        intro h
        have : g.weekStart ∈ groupKeys rest :=
          List.mem_map_of_mem WeekGroup.weekStart hmem
        have hnd' := (List.nodup_cons.mp hnd).1
        exact hnd' (h ▸ this)
      rw [if_neg hne]
      exact ih hmem ((List.nodup_cons.mp hnd).2)

/-- Boolean transitivity of the week-sort comparator
`(a, b) => a.weekStart - b.weekStart`. -/
theorem weekLe_trans (g1 g2 g3 : WeekGroup)
    (h1 : decide (g1.weekStart - g2.weekStart ≤ 0) = true)
    (h2 : decide (g2.weekStart - g3.weekStart ≤ 0) = true) :
    decide (g1.weekStart - g3.weekStart ≤ 0) = true := by
  simp only [decide_eq_true_eq] at h1 h2 ⊢
  omega

/-- Boolean totality of the week-sort comparator. -/
theorem weekLe_total (g1 g2 : WeekGroup) :
    (decide (g1.weekStart - g2.weekStart ≤ 0) ||
      decide (g2.weekStart - g1.weekStart ≤ 0)) = true := by
  simp only [Bool.or_eq_true, decide_eq_true_eq]
  omega

/-- The accumulated groups hold exactly the matching input assignments in
input order. -/
theorem collectWeeks_content (s : ℤ) (l : List Assignment) (g : WeekGroup)
    (hg : g ∈ collectWeeks s l []) :
    g.assignments =
      l.filter (fun a => decide (dueKey s a = some g.weekStart)) := by
  have hnd : (groupKeys (collectWeeks s l [])).Nodup :=
    groupKeys_nodup_collectWeeks s l [] (by simp [groupKeys])
  rw [assignments_eq_findAssignments _ g hg hnd,
    findAssignments_collectWeeks]
  simp [findAssignments]

/-! ### Claim C5 -/

/-- Claim C5: with "now" and the week-start day fixed, `groupByWeek`
discards assignments without a due timestamp; each group holds exactly the
input assignments whose week-start key equals the group's `weekStart`,
ordered by `sortByCoursePositionThenDate`; the groups come out strictly
ascending by `weekStart` (so an assignment belongs to exactly one group —
the one keyed by its week start, which exists by the third clause); and the
function is deterministic and idempotent on the same input. -/
theorem claim_C5_groupByWeek (s : ℤ) (l : List Assignment) :
    (∀ g ∈ groupByWeek s l, g.assignments =
      sortByCoursePositionThenDate
        (l.filter (fun a => decide (dueKey s a = some g.weekStart)))) ∧
    (groupByWeek s l).Pairwise (fun g1 g2 => g1.weekStart < g2.weekStart) ∧
    (∀ a ∈ l, ∀ d, a.due_at = some d →
      ∃ g ∈ groupByWeek s l, g.weekStart = getWeekStart s d ∧
        a ∈ g.assignments) ∧
    (∀ g ∈ groupByWeek s l, ∀ a ∈ g.assignments, a.due_at ≠ none) ∧
    groupByWeek s l = groupByWeek s l := by
  have hperm : (List.mergeSort (collectWeeks s l [])
      (fun g1 g2 => decide (g1.weekStart - g2.weekStart ≤ 0))).Perm
      (collectWeeks s l []) :=
    List.mergeSort_perm (collectWeeks s l []) _
  have hndC : (groupKeys (collectWeeks s l [])).Nodup :=
    groupKeys_nodup_collectWeeks s l [] (by simp [groupKeys])
  have hndS : (groupKeys (List.mergeSort (collectWeeks s l [])
      (fun g1 g2 => decide (g1.weekStart - g2.weekStart ≤ 0)))).Nodup := by
    unfold groupKeys
    exact ((hperm.map WeekGroup.weekStart).nodup_iff).mpr hndC
  have hcontent : ∀ g ∈ groupByWeek s l, g.assignments =
      sortByCoursePositionThenDate
        (l.filter (fun a => decide (dueKey s a = some g.weekStart))) := by
    intro g hg
    unfold groupByWeek at hg
    obtain ⟨w, hwS, hfw⟩ := List.mem_map.mp hg
    have hwC : w ∈ collectWeeks s l [] := hperm.mem_iff.mp hwS
    have hcont := collectWeeks_content s l w hwC
    subst hfw
    dsimp only
    rw [hcont]
  refine ⟨hcontent, ?_, ?_, ?_, rfl⟩
  · unfold groupByWeek
    rw [List.pairwise_map]
    have hsorted := List.sorted_mergeSort weekLe_trans weekLe_total
      (collectWeeks s l [])
    have hne : (List.mergeSort (collectWeeks s l [])
        (fun g1 g2 => decide (g1.weekStart - g2.weekStart ≤ 0))).Pairwise
        (fun w1 w2 => w1.weekStart ≠ w2.weekStart) := by
      have h' := hndS
      unfold groupKeys at h'
      rw [List.Nodup] at h'
      exact List.pairwise_map.mp h'
    refine (hsorted.and hne).imp ?_
    rintro w1 w2 ⟨hle, hneq⟩
    simp only [decide_eq_true_eq] at hle
    dsimp only
    omega
  · intro a ha d hd
    have hk : getWeekStart s d ∈ l.filterMap (dueKey s) :=
      List.mem_filterMap.mpr ⟨a, ha, by simp [dueKey, hd]⟩
    have hkC : getWeekStart s d ∈ groupKeys (collectWeeks s l []) :=
      (groupKeys_collectWeeks s l [] _).mpr (Or.inr hk)
    obtain ⟨w, hwC, hws⟩ := List.mem_map.mp hkC
    have hwS : w ∈ List.mergeSort (collectWeeks s l [])
        (fun g1 g2 => decide (g1.weekStart - g2.weekStart ≤ 0)) :=
      hperm.mem_iff.mpr hwC
    refine ⟨⟨w.weekStart, sortByCoursePositionThenDate w.assignments⟩,
      ?_, hws, ?_⟩
    · unfold groupByWeek
      exact List.mem_map_of_mem _ hwS
    · dsimp only
      unfold sortByCoursePositionThenDate
      rw [List.mem_mergeSort]
      rw [collectWeeks_content s l w hwC]
      rw [List.mem_filter]
      refine ⟨ha, ?_⟩
      simp [dueKey, hd, hws]
  · intro g hg a hga
    rw [hcontent g hg] at hga
    unfold sortByCoursePositionThenDate at hga
    rw [List.mem_mergeSort, List.mem_filter] at hga
    have := hga.2
    simp only [decide_eq_true_eq] at this
    intro hnone
    rw [dueKey, hnone] at this
    simp at this

/-- Witness for C5: with week-start Sunday, the sample assignment due at
`100000` ms lands in the group keyed by its week start. -/
theorem claim_C5_groupByWeek_witness :
    ∃ g ∈ groupByWeek 0 [sampleAssignment, samplePastAssignment],
      g.weekStart = getWeekStart 0 100000 ∧
        sampleAssignment ∈ g.assignments :=
  (claim_C5_groupByWeek 0 [sampleAssignment, samplePastAssignment]).2.2.1
    sampleAssignment (by decide) 100000 rfl

/-! ### Urgency gradient (`src/utils/dates.js` lines 123-174) -/

/-- An RGB color stop. -/
structure RGB where
  r : ℤ
  g : ℤ
  b : ℤ
deriving DecidableEq, Repr

/-- `{ r: 215, g: 95, b: 95 }` — `#D75F5F`, soft red. -/
def red : RGB := ⟨215, 95, 95⟩

/-- `{ r: 215, g: 175, b: 95 }` — `#D7AF5F`, soft amber. -/
def yellow : RGB := ⟨215, 175, 95⟩

/-- `{ r: 95, g: 175, b: 95 }` — `#5FAF5F`, soft green. -/
def green : RGB := ⟨95, 175, 95⟩

/-- JavaScript `Math.round`: round half toward positive infinity. -/
def jsRound (q : ℚ) : ℤ :=
  ⌊q + 1/2⌋

/-- `lerp(start, end, t) = Math.round(start + (end - start) * t)`
(`src/utils/dates.js` lines 120-122). -/
def lerp (start stop : ℤ) (t : ℚ) : ℤ :=
  jsRound (start + (stop - start) * t)

/-- `toHex = (n) => n.toString(16).padStart(2, '0')`
(`src/utils/dates.js` line 172); channel values are nonnegative here. -/
def toHex (n : ℤ) : String :=
  let digits := Nat.toDigits 16 n.toNat
  String.mk (List.replicate (2 - digits.length) '0' ++ digits)

/-- `` `#${toHex(r)}${toHex(g)}${toHex(b)}` `` (`src/utils/dates.js` line 173). -/
def hexColor (r g b : ℤ) : String :=
  "#" ++ toHex r ++ toHex g ++ toHex b

/-- The branch structure of `getDueDateColor` after `daysUntilDue` is
computed (`src/utils/dates.js` lines 149-173), factored out so the claims
can quantify over `daysUntilDue` directly. -/
def colorOfDays (daysUntilDue : ℚ) : String :=
  if daysUntilDue ≤ 1 then
    hexColor red.r red.g red.b
  else if daysUntilDue ≤ 7 then
    let t := (daysUntilDue - 1) / 6
    hexColor (lerp red.r yellow.r t) (lerp red.g yellow.g t)
      (lerp red.b yellow.b t)
  else if daysUntilDue ≤ 13 then
    let t := (daysUntilDue - 7) / 6
    hexColor (lerp yellow.r green.r t) (lerp yellow.g green.g t)
      (lerp yellow.b green.b t)
  else
    hexColor green.r green.g green.b

/-- `getDueDateColor(dateString)` from `src/utils/dates.js` lines 137-174:
`'#5FAF5F'` for a missing date, otherwise the piecewise-linear gradient of
`daysUntilDue = (date - now) / msPerDay` with `msPerDay = 24*60*60*1000`
(a real number, not floored). -/
def getDueDateColor (now : ℤ) (dateString : Option ℤ) : String :=
  match dateString with
  | none => "#5FAF5F"
  | some date =>
    let msPerDay : ℚ := 24 * 60 * 60 * 1000
    let daysUntilDue : ℚ := ((date : ℚ) - (now : ℚ)) / msPerDay
    colorOfDays daysUntilDue

/-- The `daysUntilDue` value of a concrete date difference. -/
theorem daysUntilDue_eq (now due : ℤ) (k : ℚ)
    (h : ((due : ℚ) - (now : ℚ)) = k * 86400000) :
    ((due : ℚ) - (now : ℚ)) / (24 * 60 * 60 * 1000) = k := by
  rw [h]
  norm_num

/-- At exactly one day out the gradient is the pure red stop. -/
theorem colorOfDays_one : colorOfDays 1 = "#d75f5f" := by
  unfold colorOfDays
  rw [if_pos (by norm_num : (1 : ℚ) ≤ 1)]
  decide

/-- At exactly seven days out the gradient is the pure yellow stop. -/
theorem colorOfDays_seven : colorOfDays 7 = "#d7af5f" := by
  unfold colorOfDays
  rw [if_neg (by norm_num : ¬((7 : ℚ) ≤ 1)), if_pos (by norm_num : (7 : ℚ) ≤ 7)]
  dsimp only
  rw [show ((7 : ℚ) - 1) / 6 = 1 by norm_num]
  norm_num [lerp, jsRound, red, yellow]
  decide

/-- At exactly thirteen days out the gradient is the pure green stop. -/
theorem colorOfDays_thirteen : colorOfDays 13 = "#5faf5f" := by
  unfold colorOfDays
  rw [if_neg (by norm_num : ¬((13 : ℚ) ≤ 1)),
    if_neg (by norm_num : ¬((13 : ℚ) ≤ 7)),
    if_pos (by norm_num : (13 : ℚ) ≤ 13)]
  dsimp only
  rw [show ((13 : ℚ) - 7) / 6 = 1 by norm_num]
  norm_num [lerp, jsRound, yellow, green]
  decide

/-- Beyond the last stop the gradient is flat at the pure green stop. -/
theorem colorOfDays_twenty : colorOfDays 20 = "#5faf5f" := by
  unfold colorOfDays
  rw [if_neg (by norm_num : ¬((20 : ℚ) ≤ 1)),
    if_neg (by norm_num : ¬((20 : ℚ) ≤ 7)),
    if_neg (by norm_num : ¬((20 : ℚ) ≤ 13))]
  decide

/-! ### Claim C8 -/

/-- Claim C8: writing `daysUntilDue = (due - now) / 86400000`, the gradient
is exactly the pure red stop at `daysUntilDue = 1`, the pure yellow stop at
`7`, the pure green stop at `13`, byte-identical to the 13-day color at
`20`; and on `(1, 7]` and `(7, 13]` it is the per-channel linear
interpolation with `t = (daysUntilDue - 1)/6`, resp. `(daysUntilDue - 7)/6`,
each channel rounded to nearest (`lerp`) and rendered as two lowercase
zero-padded hex digits after a leading `#` (`hexColor`). -/
theorem claim_C8_getDueDateColor (now due : ℤ) :
    (due - now = 86400000 → getDueDateColor now (some due) = "#d75f5f") ∧
    (due - now = 7 * 86400000 → getDueDateColor now (some due) = "#d7af5f") ∧
    (due - now = 13 * 86400000 → getDueDateColor now (some due) = "#5faf5f") ∧
    (due - now = 20 * 86400000 →
      getDueDateColor now (some due) =
        getDueDateColor now (some (now + 13 * 86400000))) ∧
    (86400000 < due - now → due - now ≤ 7 * 86400000 →
      getDueDateColor now (some due) =
        hexColor
          (lerp red.r yellow.r ((((due : ℚ) - now) / 86400000 - 1) / 6))
          (lerp red.g yellow.g ((((due : ℚ) - now) / 86400000 - 1) / 6))
          (lerp red.b yellow.b ((((due : ℚ) - now) / 86400000 - 1) / 6))) ∧
    (7 * 86400000 < due - now → due - now ≤ 13 * 86400000 →
      getDueDateColor now (some due) =
        hexColor
          (lerp yellow.r green.r ((((due : ℚ) - now) / 86400000 - 7) / 6))
          (lerp yellow.g green.g ((((due : ℚ) - now) / 86400000 - 7) / 6))
          (lerp yellow.b green.b ((((due : ℚ) - now) / 86400000 - 7) / 6))) := by
  have hde : ((due : ℚ) - (now : ℚ)) = ((due - now : ℤ) : ℚ) := by
    push_cast
    ring
  refine ⟨?_, ?_, ?_, ?_, ?_, ?_⟩
  · intro h
    unfold getDueDateColor
    dsimp only
    rw [daysUntilDue_eq now due 1 (by rw [hde, h]; norm_num)]
    exact colorOfDays_one
  · intro h
    unfold getDueDateColor
    dsimp only
    rw [daysUntilDue_eq now due 7 (by rw [hde, h]; norm_num)]
    exact colorOfDays_seven
  · intro h
    unfold getDueDateColor
    dsimp only
    rw [daysUntilDue_eq now due 13 (by rw [hde, h]; norm_num)]
    exact colorOfDays_thirteen
  · intro h
    unfold getDueDateColor
    dsimp only
    rw [daysUntilDue_eq now due 20 (by rw [hde, h]; norm_num)]
    rw [daysUntilDue_eq now (now + 13 * 86400000) 13 (by push_cast; ring)]
    rw [colorOfDays_twenty, colorOfDays_thirteen]
  · intro h1 h2
    unfold getDueDateColor
    dsimp only
    unfold colorOfDays
    rw [if_neg, if_pos]
    · dsimp only
      norm_num
    · rw [hde, div_le_iff₀ (by norm_num : (0 : ℚ) < 24 * 60 * 60 * 1000)]
      calc ((due - now : ℤ) : ℚ) ≤ ((7 * 86400000 : ℤ) : ℚ) := by
            exact_mod_cast h2
        _ ≤ 7 * (24 * 60 * 60 * 1000) := by norm_num
    · rw [hde]
      intro hcon
      rw [div_le_iff₀ (by norm_num : (0 : ℚ) < 24 * 60 * 60 * 1000)] at hcon
      have : ((due - now : ℤ) : ℚ) ≤ 86400000 := by
        calc ((due - now : ℤ) : ℚ) ≤ 1 * (24 * 60 * 60 * 1000) := hcon
          _ = 86400000 := by norm_num
      have : due - now ≤ 86400000 := by exact_mod_cast this
      omega
  · intro h1 h2
    unfold getDueDateColor
    dsimp only
    unfold colorOfDays
    rw [if_neg, if_neg, if_pos]
    · dsimp only
      norm_num
    · rw [hde, div_le_iff₀ (by norm_num : (0 : ℚ) < 24 * 60 * 60 * 1000)]
      calc ((due - now : ℤ) : ℚ) ≤ ((13 * 86400000 : ℤ) : ℚ) := by
            exact_mod_cast h2
        _ ≤ 13 * (24 * 60 * 60 * 1000) := by norm_num
    · rw [hde]
      intro hcon
      rw [div_le_iff₀ (by norm_num : (0 : ℚ) < 24 * 60 * 60 * 1000)] at hcon
      have h7 : ((due - now : ℤ) : ℚ) ≤ ((7 * 86400000 : ℤ) : ℚ) := by
        calc ((due - now : ℤ) : ℚ) ≤ 7 * (24 * 60 * 60 * 1000) := hcon
          _ = ((7 * 86400000 : ℤ) : ℚ) := by norm_num
      have : due - now ≤ 7 * 86400000 := by exact_mod_cast h7
      omega
    · rw [hde]
      intro hcon
      rw [div_le_iff₀ (by norm_num : (0 : ℚ) < 24 * 60 * 60 * 1000)] at hcon
      have h1q : ((due - now : ℤ) : ℚ) ≤ ((86400000 : ℤ) : ℚ) := by
        calc ((due - now : ℤ) : ℚ) ≤ 1 * (24 * 60 * 60 * 1000) := hcon
          _ = ((86400000 : ℤ) : ℚ) := by norm_num
      have : due - now ≤ 86400000 := by exact_mod_cast h1q
      omega

/-- Witness for C8 with `now = 0`: boundary dates at 1, 7, 13 and 20 days
and interior dates at 4 and 10 days. -/
theorem claim_C8_getDueDateColor_witness :
    getDueDateColor 0 (some 86400000) = "#d75f5f" ∧
    getDueDateColor 0 (some 604800000) = "#d7af5f" ∧
    getDueDateColor 0 (some 1123200000) = "#5faf5f" ∧
    getDueDateColor 0 (some 1728000000) =
      getDueDateColor 0 (some (0 + 13 * 86400000)) ∧
    getDueDateColor 0 (some 345600000) =
      hexColor
        (lerp red.r yellow.r
          (((((345600000 : ℤ) : ℚ) - ((0 : ℤ) : ℚ)) / 86400000 - 1) / 6))
        (lerp red.g yellow.g
          (((((345600000 : ℤ) : ℚ) - ((0 : ℤ) : ℚ)) / 86400000 - 1) / 6))
        (lerp red.b yellow.b
          (((((345600000 : ℤ) : ℚ) - ((0 : ℤ) : ℚ)) / 86400000 - 1) / 6)) ∧
    getDueDateColor 0 (some 864000000) =
      hexColor
        (lerp yellow.r green.r
          (((((864000000 : ℤ) : ℚ) - ((0 : ℤ) : ℚ)) / 86400000 - 7) / 6))
        (lerp yellow.g green.g
          (((((864000000 : ℤ) : ℚ) - ((0 : ℤ) : ℚ)) / 86400000 - 7) / 6))
        (lerp yellow.b green.b
          (((((864000000 : ℤ) : ℚ) - ((0 : ℤ) : ℚ)) / 86400000 - 7) / 6)) :=
  ⟨(claim_C8_getDueDateColor 0 86400000).1 (by decide),
   (claim_C8_getDueDateColor 0 604800000).2.1 (by decide),
   (claim_C8_getDueDateColor 0 1123200000).2.2.1 (by decide),
   (claim_C8_getDueDateColor 0 1728000000).2.2.2.1 (by decide),
   (claim_C8_getDueDateColor 0 345600000).2.2.2.2.1 (by decide) (by decide),
   (claim_C8_getDueDateColor 0 864000000).2.2.2.2.2 (by decide) (by decide)⟩
